import Mathlib

/-!
Shallow embedding of the attachment-management blueprint of
`src/files.py` (routes `data_for_upload`, `upload_pdf`, `view_file`,
`download_file`, `delete_file`, `rename_file`, `list_files`) over the
relational data model of `src/models.py` (tables `materias`, `cursos`,
`archivos`).

State is a pair of a committed database (`DB`) and the set of file names
present in the `uploads` directory (`List String`).  Rows pending in the
SQLAlchemy session are rolled back whenever a handler returns without
committing (Flask-SQLAlchemy removes the scoped session at request
teardown), so every handler returns the caller-visible committed state.

The handlers are deterministic given the outcomes of their database and
filesystem effects; those outcomes (a flush or commit raising
`IntegrityError` or another exception because of a concurrent request, a
filesystem call raising `OSError`) are passed in explicitly as fault
parameters, one per effect site of the source code.
-/

namespace Prototipo

/-- Characters kept by the regex `[^A-Za-z0-9_.-]` of werkzeug's
`secure_filename` (every other character is deleted). -/
def keepChar (c : Char) : Bool :=
  c.isAlpha || c.isDigit || c = '_' || c = '.' || c = '-'

/-- Whitespace-separated tokens of a character list, as Python's
`str.split()` returns them (runs of whitespace separate, empties dropped). -/
def wsSplitAux : List Char → List Char → List (List Char)
  | [], cur => if cur.isEmpty then [] else [cur.reverse]
  | c :: rest, cur =>
    if c.isWhitespace then
      if cur.isEmpty then wsSplitAux rest []
      else cur.reverse :: wsSplitAux rest []
    else wsSplitAux rest (c :: cur)

def wsSplit (l : List Char) : List (List Char) := wsSplitAux l []

/-- Drops leading and trailing `.` and `_`, as Python's `strip("._")`. -/
def stripDotUnd (l : List Char) : List Char :=
  ((l.dropWhile (fun c => c = '.' || c = '_')).reverse.dropWhile
    (fun c => c = '.' || c = '_')).reverse

/-- Models `werkzeug.utils.secure_filename` for ASCII input: path
separators become spaces, whitespace runs collapse to `_`, characters
outside `[A-Za-z0-9_.-]` are deleted, leading and trailing `.`/`_` are
stripped.  (The initial NFKD/ASCII-encode step is modelled as dropping
non-ASCII characters.) -/
def secure_filename (s : String) : String :=
  let ascii := s.data.filter (fun c => c.toNat < 128)
  let sep := ascii.map (fun c => if c = '/' then ' ' else c)
  let joined := List.intercalate ['_'] (wsSplit sep)
  String.mk (stripDotUnd (joined.filter keepChar))

/-- Lower-cases every character, as Python's `str.lower()` for ASCII. -/
def lowerStr (s : String) : String := String.mk (s.data.map Char.toLower)

/-- Does the character list `suf` end the character list `l`?  Used to
model Python's `str.endswith`. -/
def startsWithCh : List Char → List Char → Bool
  | [], _ => true
  | _ :: _, [] => false
  | a :: as, b :: bs => a = b && startsWithCh as bs

def endsWithStr (s suf : String) : Bool :=
  startsWithCh suf.data.reverse s.data.reverse

/-- Does `needle` occur contiguously inside the list?  Literal
containment, used to relate the LIKE matcher below to plain substring
search for wildcard-free terms. -/
def occursIn (needle : List Char) : List Char → Bool
  | [] => startsWithCh needle []
  | c :: rest => startsWithCh needle (c :: rest) || occursIn needle rest

/-- Models Python's `str.strip()` (trim surrounding whitespace). -/
def pyStrip (s : String) : String :=
  String.mk (((s.data.dropWhile Char.isWhitespace).reverse.dropWhile
    Char.isWhitespace).reverse)

/-- Index of the last element satisfying `p`, counting from `i`. -/
def lastIdxAux (p : Char → Bool) : List Char → Nat → Option Nat
  | [], _ => none
  | c :: rest, i =>
    match lastIdxAux p rest (i + 1) with
    | some j => some j
    | none => if p c then some i else none

def lastIdx (p : Char → Bool) (l : List Char) : Option Nat := lastIdxAux p l 0

/-- Models `os.path.splitext(s)[0]` (POSIX): the name up to the last dot,
unless every character of the base name before that dot is itself a dot,
in which case the whole name is returned. -/
def splitextBase (s : String) : String :=
  let l := s.data
  let start := match lastIdx (fun c => c = '/') l with
    | some i => i + 1
    | none => 0
  match lastIdx (fun c => c = '.') l with
  | none => s
  | some d =>
    if decide (start ≤ d) &&
        ((l.drop start).take (d - start)).any (fun c => c != '.') then
      String.mk (l.take d)
    else s

/-- Adds a file name to the uploads directory (overwriting any file that
already bears the name, as `file.save` and `os.rename` do). -/
def fsPut (name : String) (fs : List String) : List String :=
  (fs.filter (fun n => n ≠ name)) ++ [name]

/-- `os.rename src dst`: fails (raises `OSError`) when the source is
absent or when the injected fault fires; otherwise the source name is
replaced by the destination name. -/
def osRename (src dst : String) (fs : List String) (raises : Bool) :
    Except Unit (List String) :=
  if decide (src ∈ fs) && !raises then
    .ok (fsPut dst (fs.filter (fun n => n ≠ src)))
  else .error ()

/-- Row of the `materias` table (`models.py`): globally unique name. -/
structure Materia where
  id : Nat
  nombre : String
deriving DecidableEq, Repr

/-- Row of the `cursos` table: (docente, materia, periodo), with the
unique constraint `_docente_materia_periodo_uc` on the triple. -/
structure Curso where
  id : Nat
  docente_id : Nat
  materia_id : Nat
  periodo : String
deriving DecidableEq, Repr

/-- Row of the `archivos` table: globally unique stored name, owner,
course link and upload timestamp (modelled as a natural number). -/
structure Archivo where
  id : Nat
  nombre : String
  docente_id : Nat
  curso_id : Nat
  fecha_subida : Nat
deriving DecidableEq, Repr

/-- The committed database: the three tables the file routes touch, plus
the autoincrement counters. -/
structure DB where
  materias : List Materia
  cursos : List Curso
  archivos : List Archivo
  nextMateriaId : Nat
  nextCursoId : Nat
  nextArchivoId : Nat
deriving DecidableEq, Repr

/-- What a handler leaves behind: the HTTP status it returns, the
committed database and the uploads directory. -/
structure HttpResult where
  status : Nat
  db : DB
  fs : List String
deriving DecidableEq, Repr

/-- Outcome of one `db.session.flush()` / `db.session.commit()` call:
clean, `IntegrityError` (a uniqueness constraint fired, typically because
a concurrent request inserted first), or any other exception. -/
inductive DbOutcome
  | ok
  | integrityError
  | otherError
deriving DecidableEq, Repr

/-- The exception classes `upload_pdf` distinguishes. -/
inductive PyExc
  | integrity
  | other
deriving DecidableEq, Repr

def DbOutcome.raised : DbOutcome → Option PyExc
  | .ok => none
  | .integrityError => some .integrity
  | .otherError => some .other

/-- Fault injection for `upload_pdf`: the flush after creating a new
Materia, the flush after creating a new Curso, whether `file.save`
raises (the partial write is modelled as left on disk), and the final
commit. -/
structure UploadFaults where
  materiaFlush : DbOutcome
  cursoFlush : DbOutcome
  fileSaveRaises : Bool
  commit : DbOutcome
deriving DecidableEq, Repr

def noUploadFaults : UploadFaults := ⟨.ok, .ok, false, .ok⟩

/-- The `try:` block of `upload_pdf` (src/files.py lines 78-119), after
the canonical `filename` has been derived.  An `Except.error` carries the
exception class and the uploads directory as it stood when the exception
was raised; the committed database is unchanged on every error path
(rollback).  The early `return 409` of line 104 commits nothing, so the
pending Materia/Curso rows are discarded at teardown and the original
database is returned. -/
def uploadTry (db : DB) (fs : List String) (userId : Nat)
    (materia_name periodo filename : String) (now : Nat) (f : UploadFaults) :
    Except (PyExc × List String) HttpResult :=
  -- A. find-or-create Materia (flush only when created)
  let stepA : Except PyExc (DB × Nat) :=
    match db.materias.find? (fun m => m.nombre = materia_name) with
    | some m => .ok (db, m.id)
    | none =>
      match f.materiaFlush.raised with
      | some e => .error e
      | none =>
        .ok ({ db with
                materias := db.materias ++ [⟨db.nextMateriaId, materia_name⟩],
                nextMateriaId := db.nextMateriaId + 1 }, db.nextMateriaId)
  match stepA with
  | .error e => .error (e, fs)
  | .ok (db1, materiaId) =>
    -- B. find-or-create Curso (flush only when created)
    let stepB : Except PyExc (DB × Nat) :=
      match db1.cursos.find? (fun c =>
          c.docente_id = userId && c.materia_id = materiaId &&
          c.periodo = periodo) with
      | some c => .ok (db1, c.id)
      | none =>
        match f.cursoFlush.raised with
        | some e => .error e
        | none =>
          .ok ({ db1 with
                  cursos := db1.cursos ++
                    [⟨db1.nextCursoId, userId, materiaId, periodo⟩],
                  nextCursoId := db1.nextCursoId + 1 }, db1.nextCursoId)
    match stepB with
    | .error e => .error (e, fs)
    | .ok (db2, cursoId) =>
      -- C. reject if an Archivo with the stored name already exists
      if db2.archivos.any (fun a => a.nombre = filename) then
        .ok ⟨409, db, fs⟩
      else
        -- D. file.save(filepath)
        let fsSaved := fsPut filename fs
        if f.fileSaveRaises then .error (.other, fsSaved)
        else
          -- E. insert the Archivo row and commit
          let db3 := { db2 with
            archivos := db2.archivos ++
              [⟨db2.nextArchivoId, filename, userId, cursoId, now⟩],
            nextArchivoId := db2.nextArchivoId + 1 }
          match f.commit.raised with
          | some e => .error (e, fsSaved)
          | none => .ok ⟨200, db3, fsSaved⟩

/-- The stored name `upload_pdf` derives at lines 73-74 of src/files.py. -/
def uploadStoredName (materia_name periodo fileFilename : String) : String :=
  secure_filename
    (materia_name ++ "_" ++ periodo ++ "_" ++ splitextBase fileFilename ++ ".pdf")

/-- One request through `upload_pdf` (src/files.py lines 57-131).
`hasFile` is whether the multipart field carried a file, `fileFilename`
its client-supplied name; `materiaForm`/`periodoForm` the raw form
fields (stripped at lines 62-63); `now` the upload timestamp.  The
`except IntegrityError` handler (lines 121-124) rolls back and answers
409 without touching the uploads directory; the generic handler (lines
125-131) rolls back, removes the canonical file if present, and answers
500. -/
def upload_pdf (db : DB) (fs : List String) (userId : Nat)
    (hasFile : Bool) (fileFilename materiaForm periodoForm : String)
    (now : Nat) (f : UploadFaults) : HttpResult :=
  let materia_name := pyStrip materiaForm
  let periodo := pyStrip periodoForm
  if hasFile = false ∨ fileFilename = "" ∨ materia_name = "" ∨ periodo = "" then
    ⟨400, db, fs⟩
  else if ¬ endsWithStr (lowerStr fileFilename) ".pdf" then
    ⟨400, db, fs⟩
  else
    let filename := uploadStoredName materia_name periodo fileFilename
    match uploadTry db fs userId materia_name periodo filename now f with
    | .ok r => r
    | .error (.integrity, fsAt) => ⟨409, db, fsAt⟩
    | .error (.other, fsAt) => ⟨500, db, fsAt.filter (fun n => n ≠ filename)⟩

/-- Response of `view_file` / `download_file`: the single `abort(404)`
branch of each handler produces the one `notFound` value, whatever the
cause. -/
inductive FileResponse
  | notFound
  | inlineFile (name : String)
  | attachmentFile (name : String)
deriving DecidableEq, Repr

/-- `view_file` (src/files.py lines 138-151): the Archivo must exist and
belong to the caller, else `abort(404)`; `send_from_directory` then 404s
when the physical file is absent, and otherwise serves it inline. -/
def view_file (db : DB) (fs : List String) (userId : Nat)
    (filename : String) : FileResponse :=
  match db.archivos.find? (fun a =>
      a.nombre = filename && a.docente_id = userId) with
  | none => .notFound
  | some _ => if filename ∈ fs then .inlineFile filename else .notFound

/-- `download_file` (src/files.py lines 153-163): same lookup, served as
a forced attachment. -/
def download_file (db : DB) (fs : List String) (userId : Nat)
    (filename : String) : FileResponse :=
  match db.archivos.find? (fun a =>
      a.nombre = filename && a.docente_id = userId) with
  | none => .notFound
  | some _ => if filename ∈ fs then .attachmentFile filename else .notFound

/-- Fault injection for `delete_file`: the delete+commit raising, and
`os.remove` raising. -/
structure DeleteFaults where
  commitRaises : Bool
  removeRaises : Bool
deriving DecidableEq, Repr

/-- `delete_file` (src/files.py lines 166-190): ownership lookup, then
delete the row and commit, then remove the physical file when present.
A failing commit reaches the `except` before the filesystem is touched;
a failing `os.remove` reaches it after the commit, whose effect the
rollback can no longer undo. -/
def delete_file (db : DB) (fs : List String) (userId : Nat)
    (filename : String) (f : DeleteFaults) : HttpResult :=
  match db.archivos.find? (fun a =>
      a.nombre = filename && a.docente_id = userId) with
  | none => ⟨404, db, fs⟩
  | some a =>
    if f.commitRaises then ⟨500, db, fs⟩
    else
      let db1 := { db with archivos := db.archivos.filter (fun x => x.id ≠ a.id) }
      if filename ∈ fs then
        if f.removeRaises then ⟨500, db1, fs⟩
        else ⟨200, db1, fs.filter (fun n => n ≠ filename)⟩
      else ⟨200, db1, fs⟩

/-- Fault injection for `rename_file`: the forward `os.rename`, the
commit, and the compensating `os.rename` of the except branch. -/
structure RenameFaults where
  fsRenameRaises : Bool
  commitRaises : Bool
  undoRenameRaises : Bool
deriving DecidableEq, Repr

/-- The sanitized, extension-forced target name `rename_file` derives at
src/files.py lines 207-213. -/
def renameFinalName (new_name_raw : String) : String :=
  let clean_new_name := secure_filename new_name_raw
  if !(endsWithStr (lowerStr clean_new_name) ".pdf") then
    clean_new_name ++ ".pdf"
  else clean_new_name

/-- `rename_file` (src/files.py lines 195-252): sanitize and force the
`.pdf` extension, ownership lookup (404), global new-name conflict check
(400), physical rename first (absence tolerated: only the database is
updated), then the database commit; if the commit fails after the
physical rename, the handler renames the file back, and when that
compensation itself raises it logs the critical inconsistency and still
answers 500. -/
def rename_file (db : DB) (fs : List String) (userId : Nat)
    (old_name new_name_raw : String) (f : RenameFaults) : HttpResult :=
  if old_name = "" ∨ new_name_raw = "" then ⟨400, db, fs⟩
  else
    let final_new_name := renameFinalName new_name_raw
    match db.archivos.find? (fun a =>
        a.nombre = old_name && a.docente_id = userId) with
    | none => ⟨404, db, fs⟩
    | some a =>
      if db.archivos.any (fun b => b.nombre = final_new_name) then
        ⟨400, db, fs⟩
      else
        let physStep : Except Unit (List String) :=
          if old_name ∈ fs then
            osRename old_name final_new_name fs f.fsRenameRaises
          else .ok fs
        match physStep with
        | .error _ => ⟨500, db, fs⟩
        | .ok fs1 =>
          if f.commitRaises then
            let fs2 :=
              match osRename final_new_name old_name fs1 f.undoRenameRaises with
              | .ok fs2 => fs2
              | .error _ => fs1
            ⟨500, db, fs2⟩
          else
            ⟨200,
              { db with archivos := db.archivos.map (fun b =>
                  if b.id = a.id then { b with nombre := final_new_name }
                  else b) },
              fs1⟩

/-- `data_for_upload` (src/files.py lines 32-52): the distinct Materia
names and the distinct Curso periods of the whole system; the handler
never consults the calling teacher. -/
def data_for_upload (db : DB) : List String × List String :=
  ((db.materias.map Materia.nombre).dedup,
   (db.cursos.map Curso.periodo).dedup)

/-- One pattern character of a `%`-free LIKE segment against one string
character: `_` matches any single character, anything else itself. -/
def charMatch (pc c : Char) : Bool := pc = '_' || pc = c

/-- Does a `%`-free LIKE segment match a prefix of the string? -/
def segAt : List Char → List Char → Bool
  | [], _ => true
  | _ :: _, [] => false
  | p :: ps, c :: cs => charMatch p c && segAt ps cs

/-- Finds the leftmost position where the segment matches and returns
the string past the matched part; `none` when the segment matches
nowhere. -/
def dropAfterSeg (seg : List Char) : List Char → Option (List Char)
  | [] => if seg.isEmpty then some [] else none
  | c :: cs =>
    if segAt seg (c :: cs) then some (List.drop seg.length (c :: cs))
    else dropAfterSeg seg cs

/-- Matches the LIKE pattern `%seg1%seg2%...%segk%` against a string:
the segments are located left to right, `%` absorbing anything before,
between and after them (leftmost matching is complete here because every
segment is preceded and followed by `%`). -/
def segsMatch : List (List Char) → List Char → Bool
  | [], _ => true
  | seg :: rest, s =>
    match dropAfterSeg seg s with
    | none => false
    | some s1 => segsMatch rest s1

/-- The `%`-separated chunks of a LIKE pattern. -/
def splitOnPercentAux : List Char → List Char → List (List Char)
  | [], cur => [cur.reverse]
  | c :: rest, cur =>
    if c = '%' then cur.reverse :: splitOnPercentAux rest []
    else splitOnPercentAux rest (c :: cur)

def splitOnPercent (l : List Char) : List (List Char) := splitOnPercentAux l []

/-- Models the match of `column.ilike('%' + term + '%')` as src/files.py
lines 273-275 build it, with SQL LIKE semantics: the comparison is
case-insensitive, and inside the raw, unescaped term `%` matches any run
of characters while `_` matches exactly one character; the surrounding
`%` make it a search anywhere in the column value.  Only for a term free
of `%` and `_` is this literal case-insensitive substring containment. -/
def ilikeContains (hay term : String) : Bool :=
  segsMatch (splitOnPercent (lowerStr term).data) (lowerStr hay).data

/-- The search filter of `list_files` (src/files.py lines 272-276): the
joined Curso and Materia rows of the Archivo, matched on file name,
materia name or periodo. -/
def archivoMatches (db : DB) (term : String) (a : Archivo) : Bool :=
  match db.cursos.find? (fun c => c.id = a.curso_id) with
  | none => false
  | some c =>
    match db.materias.find? (fun m => m.id = c.materia_id) with
    | none => false
    | some m =>
      ilikeContains a.nombre term || ilikeContains m.nombre term ||
        ilikeContains c.periodo term

/-- The course annotation of one listed row (src/files.py lines 283-291). -/
def courseLabel (db : DB) (a : Archivo) : String :=
  match db.cursos.find? (fun c => c.id = a.curso_id) with
  | none => "Sin Curso"
  | some c =>
    match db.materias.find? (fun m => m.id = c.materia_id) with
    | none => "Sin Curso"
    | some m => m.nombre ++ " (" ++ c.periodo ++ ")"

/-- One row of the JSON answer of `list_files` (the `date` field keeps
the raw timestamp the row is ordered by). -/
structure FileEntry where
  id : Nat
  name : String
  course : String
  date : Nat
deriving DecidableEq, Repr

/-- Insertion into a list sorted by `le`. -/
def insertSorted (le : α → α → Bool) (x : α) : List α → List α
  | [] => [x]
  | y :: ys => if le x y then x :: y :: ys else y :: insertSorted le x ys

/-- Sorting by `le`; models the `ORDER BY` of the query. -/
def sortByLe (le : α → α → Bool) : List α → List α
  | [] => []
  | x :: xs => insertSorted le x (sortByLe le xs)

/-- `list_files` (src/files.py lines 258-300): the caller's Archivos,
search-filtered through the Curso/Materia join when a term is given
(line 269: the empty term applies no filter), ordered by
`fecha_subida.desc()`, annotated with the course label. -/
def list_files (db : DB) (userId : Nat) (search_term : String) :
    List FileEntry :=
  let base := db.archivos.filter (fun a => a.docente_id = userId)
  let filtered :=
    if search_term = "" then base
    else base.filter (archivoMatches db search_term)
  let ordered := sortByLe (fun a b => b.fecha_subida ≤ a.fecha_subida) filtered
  ordered.map (fun a =>
    ⟨a.id, a.nombre, courseLabel db a, a.fecha_subida⟩)

/-- The empty database, as after `db.create_all()` on a fresh install. -/
def db0 : DB := ⟨[], [], [], 0, 0, 0⟩

/-- A database holding the one file teacher 1 uploaded (`notes.pdf` for
materia `Algebra`, periodo `2024A`, at time 5). -/
def db1 : DB :=
  ⟨[⟨0, "Algebra"⟩], [⟨0, 1, 0, "2024A"⟩],
   [⟨0, "Algebra_2024A_notes.pdf", 1, 0, 5⟩], 1, 1, 1⟩

/-- A two-teacher database: teacher 1 owns `Algebra_2024A_notes.pdf`,
teacher 2 owns `Calculo_2024B_apuntes.pdf`. -/
def db2 : DB :=
  ⟨[⟨0, "Algebra"⟩, ⟨1, "Calculo"⟩],
   [⟨0, 1, 0, "2024A"⟩, ⟨1, 2, 1, "2024B"⟩],
   [⟨0, "Algebra_2024A_notes.pdf", 1, 0, 5⟩,
    ⟨1, "Calculo_2024B_apuntes.pdf", 2, 1, 7⟩], 2, 2, 2⟩

/-! Helper lemmas about the list operations the handlers are built from. -/

theorem mem_insertSorted {le : α → α → Bool} {x y : α} {l : List α} :
    y ∈ insertSorted le x l ↔ y = x ∨ y ∈ l := by
  induction l with
  | nil => simp [insertSorted]
  | cons z zs ih =>
    by_cases h : le x z = true
    · simp only [insertSorted, if_pos h, List.mem_cons]
    · simp only [insertSorted, if_neg h, List.mem_cons, ih]
      tauto

theorem pairwise_insertSorted {le : α → α → Bool}
    (htot : ∀ a b, (le a b || le b a) = true)
    (htr : ∀ a b c, le a b = true → le b c = true → le a c = true)
    (x : α) {l : List α} (hl : l.Pairwise (fun a b => le a b = true)) :
    (insertSorted le x l).Pairwise (fun a b => le a b = true) := by
  induction l with
  | nil => simp [insertSorted]
  | cons z zs ih =>
    rcases List.pairwise_cons.mp hl with ⟨hz, hzs⟩
    by_cases h : le x z = true
    · rw [insertSorted, if_pos h]
      refine List.pairwise_cons.mpr ⟨?_, hl⟩
      intro b hb
      rcases List.mem_cons.mp hb with h' | hb'
      · rw [h']; exact h
      · exact htr x z b h (hz b hb')
    · rw [insertSorted, if_neg h]
      refine List.pairwise_cons.mpr ⟨?_, ih hzs⟩
      intro b hb
      rcases mem_insertSorted.mp hb with h' | hb'
      · rw [h']
        have h2 := htot x z
        simp only [Bool.or_eq_true] at h2
        exact h2.resolve_left h
      · exact hz b hb'

theorem mem_sortByLe {le : α → α → Bool} {l : List α} {y : α} :
    y ∈ sortByLe le l ↔ y ∈ l := by
  induction l with
  | nil => simp [sortByLe]
  | cons x xs ih =>
    simp only [sortByLe, mem_insertSorted, ih, List.mem_cons]

theorem pairwise_sortByLe {le : α → α → Bool}
    (htot : ∀ a b, (le a b || le b a) = true)
    (htr : ∀ a b c, le a b = true → le b c = true → le a c = true)
    (l : List α) :
    (sortByLe le l).Pairwise (fun a b => le a b = true) := by
  induction l with
  | nil => simp [sortByLe]
  | cons x xs ih =>
    rw [sortByLe]
    exact pairwise_insertSorted htot htr x ih

theorem find?_key_unique {α : Type} (key : α → Nat) (k : Nat) {l : List α}
    (h : (l.map key).Nodup) {x : α} (hx : x ∈ l) (hk : key x = k) :
    l.find? (fun y => key y = k) = some x := by
  induction l with
  | nil => cases hx
  | cons a t ih =>
    rw [List.map_cons, List.nodup_cons] at h
    by_cases ha : key a = k
    · have hxa : x = a := by
        rcases List.mem_cons.mp hx with h' | hxt
        · exact h'
        · have h1 : key x ∈ t.map key := List.mem_map.mpr ⟨x, hxt, rfl⟩
          have h2 : key a = key x := by rw [ha, hk]
          exact absurd (h2 ▸ h1) h.1
      rw [hxa, List.find?_cons_of_pos _ (by simp [ha])]
    · have hxt : x ∈ t := by
        rcases List.mem_cons.mp hx with h' | hxt
        · exact absurd (h' ▸ hk) ha
        · exact hxt
      rw [List.find?_cons_of_neg _ (by simp [ha])]
      exact ih h.2 hxt

theorem startsWithCh_iff (p l : List Char) :
    startsWithCh p l = true ↔ p <+: l := by
  induction p generalizing l with
  | nil => simp [startsWithCh, List.nil_prefix]
  | cons a as ih =>
    cases l with
    | nil => simp [startsWithCh]
    | cons b bs =>
      simp [startsWithCh, List.cons_prefix_cons, ih]

theorem uploadTry_dup (db : DB) (fs : List String) (userId : Nat)
    (mn p fn : String) (now : Nat) (f : UploadFaults)
    (hmf : f.materiaFlush = .ok) (hcf : f.cursoFlush = .ok)
    (hdup : db.archivos.any (fun a => a.nombre = fn) = true) :
    uploadTry db fs userId mn p fn now f = .ok ⟨409, db, fs⟩ := by
  unfold uploadTry
  cases hA : db.materias.find? (fun m => m.nombre = mn) with
  | some m =>
    cases hB : db.cursos.find? (fun c =>
        c.docente_id = userId && c.materia_id = m.id && c.periodo = p) with
    | some c => simp [hB, hdup]
    | none => simp [hB, hcf, DbOutcome.raised, hdup]
  | none =>
    cases hB : db.cursos.find? (fun c =>
        c.docente_id = userId && c.materia_id = db.nextMateriaId &&
          c.periodo = p) with
    | some c => simp [hmf, DbOutcome.raised, hB, hdup]
    | none => simp [hmf, hcf, DbOutcome.raised, hB, hdup]

theorem uploadTry_cursoFlush_integrity (db : DB) (fs : List String)
    (userId : Nat) (mn p fn : String) (now : Nat) (f : UploadFaults)
    (hmf : f.materiaFlush = .ok) (hcf : f.cursoFlush = .integrityError)
    (hnc : ∀ c ∈ db.cursos, c.docente_id ≠ userId) :
    uploadTry db fs userId mn p fn now f = .error (.integrity, fs) := by
  have hB : ∀ mid : Nat, db.cursos.find? (fun c =>
      c.docente_id = userId && c.materia_id = mid && c.periodo = p) = none := by
    intro mid
    apply List.find?_eq_none.mpr
    intro c hc
    simp only [Bool.and_eq_true, decide_eq_true_eq, not_and]
    exact fun h _ => absurd h.1 (hnc c hc)
  unfold uploadTry
  cases hA : db.materias.find? (fun m => m.nombre = mn) with
  | some m => simp [hB, hcf, DbOutcome.raised]
  | none => simp [hmf, hB, hcf, DbOutcome.raised]

theorem occursIn_iff (n l : List Char) : occursIn n l = true ↔ n <:+: l := by
  induction l with
  | nil =>
    cases n with
    | nil => simp [occursIn, startsWithCh]
    | cons c cs => simp [occursIn, startsWithCh, List.infix_nil]
  | cons c cs ih =>
    simp [occursIn, startsWithCh_iff, ih, List.infix_cons_iff]

theorem splitOnPercentAux_no_pct {l : List Char} (h : '%' ∉ l)
    (cur : List Char) : splitOnPercentAux l cur = [cur.reverse ++ l] := by
  induction l generalizing cur with
  | nil => simp [splitOnPercentAux]
  | cons c rest ih =>
    rw [splitOnPercentAux,
      if_neg (fun hc => h (by rw [← hc]; exact List.mem_cons_self c rest)),
      ih (fun hm => h (List.mem_cons_of_mem c hm)) (c :: cur)]
    simp

theorem splitOnPercent_no_pct {l : List Char} (h : '%' ∉ l) :
    splitOnPercent l = [l] := by
  rw [splitOnPercent, splitOnPercentAux_no_pct h []]
  simp

theorem segAt_no_underscore {seg : List Char} (h : '_' ∉ seg)
    (s : List Char) : segAt seg s = startsWithCh seg s := by
  induction seg generalizing s with
  | nil => cases s <;> simp [segAt, startsWithCh]
  | cons p ps ih =>
    cases s with
    | nil => simp [segAt, startsWithCh]
    | cons c cs =>
      have hp : p ≠ '_' := fun hp => h (by rw [← hp]; exact List.mem_cons_self p ps)
      simp only [segAt, startsWithCh, charMatch,
        ih (fun hm => h (List.mem_cons_of_mem p hm)) cs]
      simp [hp]

theorem dropAfterSeg_isSome_no_underscore {seg : List Char} (h : '_' ∉ seg)
    (s : List Char) : (dropAfterSeg seg s).isSome = occursIn seg s := by
  induction s with
  | nil => cases seg <;> simp [dropAfterSeg, occursIn, startsWithCh]
  | cons c cs ih =>
    simp only [dropAfterSeg, occursIn, segAt_no_underscore h]
    cases hsw : startsWithCh seg (c :: cs) with
    | true => simp [hsw]
    | false => simp [hsw, ih]

theorem segsMatch_single (seg s : List Char) :
    segsMatch [seg] s = (dropAfterSeg seg s).isSome := by
  simp only [segsMatch]
  cases dropAfterSeg seg s <;> simp [segsMatch]

/-- For a term containing neither LIKE wildcard, the modelled
`ilike('%term%')` is exactly case-insensitive substring containment. -/
theorem ilikeContains_no_wildcard (hay term : String)
    (hpct : '%' ∉ (lowerStr term).data) (hund : '_' ∉ (lowerStr term).data) :
    ilikeContains hay term = true ↔
      (lowerStr term).data <:+: (lowerStr hay).data := by
  rw [ilikeContains, splitOnPercent_no_pct hpct, segsMatch_single,
    dropAfterSeg_isSome_no_underscore hund, occursIn_iff]

theorem filter_ne_of_not_mem {l : List String} {v : String} (h : v ∉ l) :
    l.filter (fun n => n ≠ v) = l := by
  apply List.filter_eq_self.mpr
  intro x hx
  simp only [ne_eq, decide_not, Bool.not_eq_eq_eq_not, Bool.not_true,
    decide_eq_false_iff_not]
  exact fun hxv => h (hxv ▸ hx)

theorem filter_ne_idem (l : List String) (v : String) :
    (l.filter (fun n => n ≠ v)).filter (fun n => n ≠ v)
      = l.filter (fun n => n ≠ v) := by
  apply filter_ne_of_not_mem
  simp

/-- Deleting the row `find?` located equals deleting by (name, owner)
once names and primary keys are duplicate-free, as the table constraints
guarantee. -/
theorem archivos_erase_found (db : DB) {filename : String} {userId : Nat}
    {a : Archivo}
    (hnn : (db.archivos.map Archivo.nombre).Nodup)
    (hid : (db.archivos.map Archivo.id).Nodup)
    (hfind : db.archivos.find?
      (fun x => x.nombre = filename && x.docente_id = userId) = some a) :
    db.archivos.filter (fun x => x.id ≠ a.id)
      = db.archivos.filter (fun x => x.nombre ≠ filename) := by
  have ha := List.mem_of_find?_eq_some hfind
  have hp := List.find?_some hfind
  simp only [Bool.and_eq_true, decide_eq_true_eq] at hp
  apply List.filter_congr
  intro x hx
  apply decide_eq_decide.mpr
  apply not_congr
  constructor
  · intro h
    have hxa : x = a := List.inj_on_of_nodup_map hid hx ha h
    rw [hxa, hp.1]
  · intro h
    have hxa : x = a := List.inj_on_of_nodup_map hnn hx ha (by rw [h, hp.1])
    rw [hxa]

/-- Renaming the row `find?` located equals renaming by (name, owner)
under the same duplicate-freedom. -/
theorem archivos_rename_found (db : DB) {old_name : String} {userId : Nat}
    {a : Archivo} (fn : String)
    (hnn : (db.archivos.map Archivo.nombre).Nodup)
    (hid : (db.archivos.map Archivo.id).Nodup)
    (hfind : db.archivos.find?
      (fun x => x.nombre = old_name && x.docente_id = userId) = some a) :
    db.archivos.map (fun b =>
        if b.id = a.id then { b with nombre := fn } else b)
      = db.archivos.map (fun b =>
          if b.nombre = old_name ∧ b.docente_id = userId then
            { b with nombre := fn } else b) := by
  have ha := List.mem_of_find?_eq_some hfind
  have hp := List.find?_some hfind
  simp only [Bool.and_eq_true, decide_eq_true_eq] at hp
  apply List.map_congr_left
  intro b hb
  by_cases h : b.id = a.id
  · have hba : b = a := List.inj_on_of_nodup_map hid hb ha h
    rw [if_pos h, if_pos (by rw [hba]; exact ⟨hp.1, hp.2⟩)]
  · rw [if_neg h, if_neg ?_]
    intro hc
    apply h
    have hba : b = a := List.inj_on_of_nodup_map hnn hb ha (by rw [hc.1, hp.1])
    rw [hba]

/-! The claims. -/

/-- C1 (what the code actually does at the failing input): when the final
commit of `upload_pdf` raises `IntegrityError` after `file.save`
succeeded — the duplicate-stored-name race the line-103 check cannot
prevent — the handler answers 409 and the just-written physical file
stays in the uploads directory while the database keeps no Archivo row:
the two stores diverge.  The compensating removal of lines 128-130 runs
only in the generic `except`, not in `except IntegrityError`. -/
theorem upload_integrity_failure_keeps_orphan_file :
    upload_pdf db0 [] 1 true "notes.pdf" "Algebra" "2024A" 5
        ⟨.ok, .ok, false, .integrityError⟩ =
      ⟨409, db0, ["Algebra_2024A_notes.pdf"]⟩ := by decide

/-- C2 counterexample: an upload whose Curso creation hits the
`_docente_materia_periodo_uc` uniqueness constraint (the flush after
`db.session.add(curso)` raising `IntegrityError`, as when a concurrent
request created the triple first) is answered 409 with nothing recorded:
the upload does not complete successfully. -/
theorem curso_race_not_reresolved_cex :
    upload_pdf db0 [] 1 true "notes.pdf" "Algebra" "2024A" 5
        ⟨.ok, .integrityError, false, .ok⟩ = ⟨409, db0, []⟩ := by decide

/-- C2 as amended: when the Curso find-or-create of `upload_pdf` hits the
course uniqueness constraint, the `except IntegrityError` handler of
lines 121-124 catches it, rolls back, and rejects the request with 409
(a message attributing the conflict to a duplicate file name) — it does
not re-resolve to the now-existing course row, and the committed
database and the uploads directory are left unchanged. -/
theorem curso_race_returns_conflict (db : DB) (fs : List String)
    (userId : Nat) (fileFilename materiaForm periodoForm : String)
    (now : Nat) (f : UploadFaults)
    (hf : fileFilename ≠ "")
    (hext : endsWithStr (lowerStr fileFilename) ".pdf" = true)
    (hm : pyStrip materiaForm ≠ "") (hp : pyStrip periodoForm ≠ "")
    (hmf : f.materiaFlush = .ok) (hcf : f.cursoFlush = .integrityError)
    (hnc : ∀ c ∈ db.cursos, c.docente_id ≠ userId) :
    upload_pdf db fs userId true fileFilename materiaForm periodoForm now f =
      ⟨409, db, fs⟩ := by
  have key := uploadTry_cursoFlush_integrity db fs userId
    (pyStrip materiaForm) (pyStrip periodoForm)
    (uploadStoredName (pyStrip materiaForm) (pyStrip periodoForm) fileFilename)
    now f hmf hcf hnc
  simp only [upload_pdf]
  rw [if_neg (by simp [hf, hm, hp]), if_neg (by simp [hext]), key]

/-- C2 witness: a concrete race on course creation is answered 409 with
state unchanged. -/
theorem curso_race_returns_conflict_witness :
    upload_pdf db0 ["stray.pdf"] 3 true "x.pdf" " Fisica " "2025B" 2
        ⟨.ok, .integrityError, false, .ok⟩ = ⟨409, db0, ["stray.pdf"]⟩ :=
  curso_race_returns_conflict db0 ["stray.pdf"] 3 "x.pdf" " Fisica " "2025B"
    2 ⟨.ok, .integrityError, false, .ok⟩ (by decide) (by decide) (by decide)
    (by decide) rfl rfl (by decide)

/-- C3: an upload whose derived canonical stored name equals the name of
an existing Archivo — whoever owns it — is rejected with 409 at the
line-103 check, before `file.save` runs: the committed database
(materias and cursos tables included) and the uploads directory are
exactly as before the request. -/
theorem upload_duplicate_name_rejected_unchanged (db : DB)
    (fs : List String) (userId : Nat)
    (fileFilename materiaForm periodoForm : String) (now : Nat)
    (f : UploadFaults)
    (hf : fileFilename ≠ "")
    (hext : endsWithStr (lowerStr fileFilename) ".pdf" = true)
    (hm : pyStrip materiaForm ≠ "") (hp : pyStrip periodoForm ≠ "")
    (hmf : f.materiaFlush = .ok) (hcf : f.cursoFlush = .ok)
    (hdup : ∃ a ∈ db.archivos, a.nombre =
      uploadStoredName (pyStrip materiaForm) (pyStrip periodoForm)
        fileFilename) :
    upload_pdf db fs userId true fileFilename materiaForm periodoForm now f =
      ⟨409, db, fs⟩ := by
  obtain ⟨a, ha, hname⟩ := hdup
  have key := uploadTry_dup db fs userId (pyStrip materiaForm)
    (pyStrip periodoForm)
    (uploadStoredName (pyStrip materiaForm) (pyStrip periodoForm) fileFilename)
    now f hmf hcf
    (List.any_eq_true.mpr ⟨a, ha, by simp [hname]⟩)
  simp only [upload_pdf]
  rw [if_neg (by simp [hf, hm, hp]), if_neg (by simp [hext]), key]

/-- C3 witness: teacher 2 re-deriving the stored name teacher 1 already
owns is answered 409 and both stores are untouched. -/
theorem upload_duplicate_name_rejected_witness :
    upload_pdf db1 ["Algebra_2024A_notes.pdf"] 2 true "notes.pdf" "Algebra"
        "2024A" 9 noUploadFaults =
      ⟨409, db1, ["Algebra_2024A_notes.pdf"]⟩ :=
  upload_duplicate_name_rejected_unchanged db1 ["Algebra_2024A_notes.pdf"] 2
    "notes.pdf" "Algebra" "2024A" 9 noUploadFaults (by decide) (by decide)
    (by decide) (by decide) rfl rfl (by decide)

/-- C8: `view_file` and `download_file` answer something other than 404
only when an Archivo with the requested name owned by the caller exists;
whenever no such Archivo exists the answer is 404, and the 404 is the
same response value across any two requests lacking an owned Archivo —
whether the name does not exist at all or names another teacher's file —
so the caller cannot tell the two cases apart. -/
theorem view_download_access_spec (dbA dbB : DB) (fsA fsB : List String)
    (uidA uidB : Nat) (nA nB : String) :
    (view_file dbA fsA uidA nA ≠ .notFound →
      ∃ a ∈ dbA.archivos, a.nombre = nA ∧ a.docente_id = uidA) ∧
    (download_file dbA fsA uidA nA ≠ .notFound →
      ∃ a ∈ dbA.archivos, a.nombre = nA ∧ a.docente_id = uidA) ∧
    ((∀ a ∈ dbA.archivos, ¬(a.nombre = nA ∧ a.docente_id = uidA)) →
     (∀ a ∈ dbB.archivos, ¬(a.nombre = nB ∧ a.docente_id = uidB)) →
      view_file dbA fsA uidA nA = .notFound ∧
      view_file dbA fsA uidA nA = view_file dbB fsB uidB nB ∧
      download_file dbA fsA uidA nA = .notFound ∧
      download_file dbA fsA uidA nA = download_file dbB fsB uidB nB) := by
  have hnone : ∀ (db : DB) (uid : Nat) (n : String),
      (∀ a ∈ db.archivos, ¬(a.nombre = n ∧ a.docente_id = uid)) →
      db.archivos.find? (fun a => a.nombre = n && a.docente_id = uid)
        = none := by
    intro db uid n h
    apply List.find?_eq_none.mpr
    intro x hx
    simp only [Bool.and_eq_true, decide_eq_true_eq]
    exact fun hc => h x hx ⟨hc.1, hc.2⟩
  refine ⟨?_, ?_, ?_⟩
  · intro hne
    cases hfind : dbA.archivos.find?
        (fun a => a.nombre = nA && a.docente_id = uidA) with
    | none => rw [view_file, hfind] at hne; exact absurd rfl hne
    | some a =>
      have hp := List.find?_some hfind
      simp only [Bool.and_eq_true, decide_eq_true_eq] at hp
      exact ⟨a, List.mem_of_find?_eq_some hfind, hp.1, hp.2⟩
  · intro hne
    cases hfind : dbA.archivos.find?
        (fun a => a.nombre = nA && a.docente_id = uidA) with
    | none => rw [download_file, hfind] at hne; exact absurd rfl hne
    | some a =>
      have hp := List.find?_some hfind
      simp only [Bool.and_eq_true, decide_eq_true_eq] at hp
      exact ⟨a, List.mem_of_find?_eq_some hfind, hp.1, hp.2⟩
  · intro hA hB
    have h1 := hnone dbA uidA nA hA
    have h2 := hnone dbB uidB nB hB
    refine ⟨?_, ?_, ?_, ?_⟩ <;> simp [view_file, download_file, h1, h2]

/-- C8 witness: teacher 1 requesting teacher 2's file gets the same 404
value as requesting a name that exists nowhere. -/
theorem view_download_access_witness :
    view_file db2 ["Calculo_2024B_apuntes.pdf"] 1 "Calculo_2024B_apuntes.pdf"
        = .notFound ∧
    view_file db2 ["Calculo_2024B_apuntes.pdf"] 1 "Calculo_2024B_apuntes.pdf"
        = view_file db0 [] 1 "Calculo_2024B_apuntes.pdf" ∧
    download_file db2 ["Calculo_2024B_apuntes.pdf"] 1
        "Calculo_2024B_apuntes.pdf" = .notFound := by
  have h := view_download_access_spec db2 db0 ["Calculo_2024B_apuntes.pdf"]
    [] 1 1 "Calculo_2024B_apuntes.pdf" "Calculo_2024B_apuntes.pdf"
  have h3 := h.2.2 (by decide) (by decide)
  exact ⟨h3.1, h3.2.1, h3.2.2.1⟩

/-- C10: `data_for_upload` returns the distinct materia names of all
Materias and the distinct periodos of all Cursos of the whole system:
membership in either returned list is characterised over the full table,
with no condition involving any owning teacher (the handler takes no
caller at all), and each list is duplicate-free. -/
theorem data_for_upload_global_spec (db : DB) :
    (∀ s, s ∈ (data_for_upload db).1 ↔ ∃ m ∈ db.materias, m.nombre = s) ∧
    (∀ p, p ∈ (data_for_upload db).2 ↔ ∃ c ∈ db.cursos, c.periodo = p) ∧
    (data_for_upload db).1.Nodup ∧ (data_for_upload db).2.Nodup := by
  refine ⟨fun s => ?_, fun p => ?_, ?_, ?_⟩ <;>
    simp [data_for_upload, List.mem_dedup, List.mem_map, List.nodup_dedup]

/-- C4: `delete_file` answers 404 with state untouched when no Archivo of
that name belongs to the caller; when one does, a failing delete+commit
leaves both stores exactly as they were — the physical file is never
removed while the row still exists — and a successful commit with the
physical file already absent still answers 200, removing just the row. -/
theorem delete_file_spec (db : DB) (fs : List String) (userId : Nat)
    (filename : String) (f : DeleteFaults)
    (hnn : (db.archivos.map Archivo.nombre).Nodup)
    (hid : (db.archivos.map Archivo.id).Nodup) :
    ((∀ a ∈ db.archivos, ¬(a.nombre = filename ∧ a.docente_id = userId)) →
        delete_file db fs userId filename f = ⟨404, db, fs⟩) ∧
    ((∃ a ∈ db.archivos, a.nombre = filename ∧ a.docente_id = userId) →
      (f.commitRaises = true →
          delete_file db fs userId filename f = ⟨500, db, fs⟩) ∧
      (f.commitRaises = false → filename ∉ fs →
          delete_file db fs userId filename f =
            ⟨200, { db with archivos :=
                db.archivos.filter (fun x => x.nombre ≠ filename) }, fs⟩)) := by
  constructor
  · intro h
    have hfind : db.archivos.find?
        (fun x => x.nombre = filename && x.docente_id = userId) = none := by
      apply List.find?_eq_none.mpr
      intro x hx
      simp only [Bool.and_eq_true, decide_eq_true_eq]
      exact fun hc => h x hx ⟨hc.1, hc.2⟩
    simp [delete_file, hfind]
  · intro hex
    obtain ⟨a, hfind⟩ : ∃ a, db.archivos.find?
        (fun x => x.nombre = filename && x.docente_id = userId) = some a :=
      Option.isSome_iff_exists.mp (List.find?_isSome.mpr (by
        obtain ⟨b, hb, h3, h4⟩ := hex
        exact ⟨b, hb, by simp [h3, h4]⟩))
    constructor
    · intro hcr
      simp [delete_file, hfind, hcr]
    · intro hcr hmem
      have herase := archivos_erase_found db hnn hid hfind
      simp only [ne_eq, decide_not] at herase
      simp [delete_file, hfind, hcr, hmem, herase]

/-- C4 witness: the three branches at concrete states — a non-owner
deleting gets 404; a failing commit leaves row and file in place; a
successful delete of a row whose physical file is already gone answers
200 with only the row removed. -/
theorem delete_file_spec_witness :
    delete_file db1 ["Algebra_2024A_notes.pdf"] 2 "Algebra_2024A_notes.pdf"
        ⟨false, false⟩ = ⟨404, db1, ["Algebra_2024A_notes.pdf"]⟩ ∧
    delete_file db1 ["Algebra_2024A_notes.pdf"] 1 "Algebra_2024A_notes.pdf"
        ⟨true, false⟩ = ⟨500, db1, ["Algebra_2024A_notes.pdf"]⟩ ∧
    delete_file db1 [] 1 "Algebra_2024A_notes.pdf" ⟨false, false⟩ =
      ⟨200, { db1 with archivos :=
          db1.archivos.filter (fun x => x.nombre ≠ "Algebra_2024A_notes.pdf") },
        []⟩ := by
  have h1 := delete_file_spec db1 ["Algebra_2024A_notes.pdf"] 2
    "Algebra_2024A_notes.pdf" ⟨false, false⟩ (by decide) (by decide)
  have h2 := delete_file_spec db1 ["Algebra_2024A_notes.pdf"] 1
    "Algebra_2024A_notes.pdf" ⟨true, false⟩ (by decide) (by decide)
  have h3 := delete_file_spec db1 [] 1 "Algebra_2024A_notes.pdf"
    ⟨false, false⟩ (by decide) (by decide)
  exact ⟨h1.1 (by decide), (h2.2 (by decide)).1 rfl,
    (h3.2 (by decide)).2 rfl (by decide)⟩

/-- C9: when the delete+commit succeeds and the subsequent `os.remove`
raises, `delete_file` answers 500 while the Archivo row is already gone —
the post-commit rollback restores nothing and the physical file stays —
so a 500 from delete does not mean the state is unchanged. -/
theorem delete_remove_failure_spec (db : DB) (fs : List String)
    (userId : Nat) (filename : String) (f : DeleteFaults)
    (hnn : (db.archivos.map Archivo.nombre).Nodup)
    (hid : (db.archivos.map Archivo.id).Nodup)
    (hex : ∃ a ∈ db.archivos, a.nombre = filename ∧ a.docente_id = userId)
    (hcr : f.commitRaises = false) (hmem : filename ∈ fs)
    (hrm : f.removeRaises = true) :
    delete_file db fs userId filename f =
      ⟨500, { db with archivos :=
          db.archivos.filter (fun x => x.nombre ≠ filename) }, fs⟩ := by
  obtain ⟨a, hfind⟩ : ∃ a, db.archivos.find?
      (fun x => x.nombre = filename && x.docente_id = userId) = some a :=
    Option.isSome_iff_exists.mp (List.find?_isSome.mpr (by
      obtain ⟨b, hb, h3, h4⟩ := hex
      exact ⟨b, hb, by simp [h3, h4]⟩))
  have herase := archivos_erase_found db hnn hid hfind
  simp only [ne_eq, decide_not] at herase
  simp [delete_file, hfind, hcr, hmem, hrm, herase]

/-- C9 witness: a concrete delete whose file removal raises answers 500
with the row gone and the file still on disk. -/
theorem delete_remove_failure_witness :
    delete_file db1 ["Algebra_2024A_notes.pdf"] 1 "Algebra_2024A_notes.pdf"
        ⟨false, true⟩ =
      ⟨500, { db1 with archivos :=
          db1.archivos.filter (fun x => x.nombre ≠ "Algebra_2024A_notes.pdf") },
        ["Algebra_2024A_notes.pdf"]⟩ :=
  delete_remove_failure_spec db1 ["Algebra_2024A_notes.pdf"] 1
    "Algebra_2024A_notes.pdf" ⟨false, true⟩ (by decide) (by decide)
    (by decide) rfl (by decide) rfl

/-- C5: a rename whose sanitized, extension-forced final name equals the
name of any existing Archivo — the caller's own or another teacher's —
is rejected with 400 at the line-224 check, before the physical file or
the database row is modified. -/
theorem rename_conflict_rejected_unchanged (db : DB) (fs : List String)
    (userId : Nat) (old_name new_name_raw : String) (f : RenameFaults)
    (h1 : old_name ≠ "") (h2 : new_name_raw ≠ "")
    (hold : ∃ a ∈ db.archivos, a.nombre = old_name ∧ a.docente_id = userId)
    (hconf : ∃ b ∈ db.archivos, b.nombre = renameFinalName new_name_raw) :
    rename_file db fs userId old_name new_name_raw f = ⟨400, db, fs⟩ := by
  obtain ⟨a, hfind⟩ : ∃ a, db.archivos.find?
      (fun x => x.nombre = old_name && x.docente_id = userId) = some a :=
    Option.isSome_iff_exists.mp (List.find?_isSome.mpr (by
      obtain ⟨b, hb, h3, h4⟩ := hold
      exact ⟨b, hb, by simp [h3, h4]⟩))
  obtain ⟨b, hb, hbn⟩ := hconf
  have hany : db.archivos.any
      (fun x => x.nombre = renameFinalName new_name_raw) = true :=
    List.any_eq_true.mpr ⟨b, hb, by simp [hbn]⟩
  simp only [rename_file]
  rw [if_neg (by simp [h1, h2])]
  simp [hfind, hany]

/-- C5 witness: teacher 1 renaming their file onto the name teacher 2
already owns is answered 400 with both stores untouched. -/
theorem rename_conflict_rejected_witness :
    rename_file db2 ["Algebra_2024A_notes.pdf", "Calculo_2024B_apuntes.pdf"]
        1 "Algebra_2024A_notes.pdf" "Calculo_2024B_apuntes.pdf"
        ⟨false, false, false⟩ =
      ⟨400, db2, ["Algebra_2024A_notes.pdf", "Calculo_2024B_apuntes.pdf"]⟩ :=
  rename_conflict_rejected_unchanged db2
    ["Algebra_2024A_notes.pdf", "Calculo_2024B_apuntes.pdf"] 1
    "Algebra_2024A_notes.pdf" "Calculo_2024B_apuntes.pdf"
    ⟨false, false, false⟩ (by decide) (by decide) (by decide) (by decide)

/-- C6: for an owned Archivo with no new-name conflict, `rename_file`
touches the physical file before the row — a failing physical rename
leaves the database untouched; an absent physical file is tolerated and
only the database is updated; and when the commit fails after a
successful physical rename the handler renames the file back to
`old_name`, while a failing compensation leaves the new name on disk
(the logged critical inconsistency) with the error still returned. -/
theorem rename_compensation_spec (db : DB) (fs : List String) (userId : Nat)
    (old_name new_name_raw : String) (f : RenameFaults)
    (h1 : old_name ≠ "") (h2 : new_name_raw ≠ "")
    (hnn : (db.archivos.map Archivo.nombre).Nodup)
    (hid : (db.archivos.map Archivo.id).Nodup)
    (hold : ∃ a ∈ db.archivos, a.nombre = old_name ∧ a.docente_id = userId)
    (hnoconf : ∀ b ∈ db.archivos, b.nombre ≠ renameFinalName new_name_raw) :
    (old_name ∈ fs → f.fsRenameRaises = true →
        rename_file db fs userId old_name new_name_raw f = ⟨500, db, fs⟩) ∧
    (old_name ∉ fs → f.commitRaises = false →
        rename_file db fs userId old_name new_name_raw f =
          ⟨200, { db with archivos := db.archivos.map (fun b =>
              if b.nombre = old_name ∧ b.docente_id = userId then
                { b with nombre := renameFinalName new_name_raw } else b) },
            fs⟩) ∧
    (old_name ∈ fs → renameFinalName new_name_raw ∉ fs →
        f.fsRenameRaises = false → f.commitRaises = true →
      (f.undoRenameRaises = false →
        rename_file db fs userId old_name new_name_raw f =
          ⟨500, db, fs.filter (fun n => n ≠ old_name) ++ [old_name]⟩) ∧
      (f.undoRenameRaises = true →
        rename_file db fs userId old_name new_name_raw f =
          ⟨500, db, fs.filter (fun n => n ≠ old_name)
              ++ [renameFinalName new_name_raw]⟩)) := by
  obtain ⟨a, hfind⟩ : ∃ a, db.archivos.find?
      (fun x => x.nombre = old_name && x.docente_id = userId) = some a :=
    Option.isSome_iff_exists.mp (List.find?_isSome.mpr (by
      obtain ⟨b, hb, h3, h4⟩ := hold
      exact ⟨b, hb, by simp [h3, h4]⟩))
  have hany : db.archivos.any
      (fun x => x.nombre = renameFinalName new_name_raw) = false :=
    List.any_eq_false.mpr (fun b hb => by simpa using hnoconf b hb)
  refine ⟨?_, ?_, ?_⟩
  · intro hmem hfsr
    simp only [rename_file]
    rw [if_neg (by simp [h1, h2])]
    simp [hfind, hany, hmem, osRename, hfsr]
  · intro hmem hcr
    have hmap := archivos_rename_found db (renameFinalName new_name_raw)
      hnn hid hfind
    simp only [rename_file]
    rw [if_neg (by simp [h1, h2])]
    simp [hfind, hany, hmem, hcr, hmap]
  · intro hmem hfn hfsr hcr
    have hfold : (fs.filter (fun n => n ≠ old_name)).filter
        (fun n => n ≠ renameFinalName new_name_raw)
          = fs.filter (fun n => n ≠ old_name) :=
      filter_ne_of_not_mem (fun hm => hfn (List.mem_of_mem_filter hm))
    constructor
    · intro hur
      simp only [rename_file]
      rw [if_neg (by simp [h1, h2])]
      simp [hfind, hany, hmem, hfsr, hcr, hur, osRename, fsPut, hfold,
        List.filter_append, filter_ne_idem, List.mem_append]
      apply List.filter_congr
      intro x hx
      have hxf : x ≠ renameFinalName new_name_raw := fun h => hfn (h ▸ hx)
      simp [hxf]
    · intro hur
      simp only [rename_file]
      rw [if_neg (by simp [h1, h2])]
      simp [hfind, hany, hmem, hfsr, hcr, hur, osRename, fsPut, hfold]
      apply List.filter_congr
      intro x hx
      have hxf : x ≠ renameFinalName new_name_raw := fun h => hfn (h ▸ hx)
      simp [hxf]

/-- C6 witness: with the physical file present, a failing commit whose
compensation succeeds puts `Algebra_2024A_notes.pdf` back on disk with the
database unchanged, and a 500 is returned. -/
theorem rename_compensation_witness :
    rename_file db1 ["Algebra_2024A_notes.pdf"] 1 "Algebra_2024A_notes.pdf"
        "nuevo" ⟨false, true, false⟩ =
      ⟨500, db1,
        (["Algebra_2024A_notes.pdf"].filter
          (fun n => n ≠ "Algebra_2024A_notes.pdf")) ++
            ["Algebra_2024A_notes.pdf"]⟩ :=
  ((rename_compensation_spec db1 ["Algebra_2024A_notes.pdf"] 1
      "Algebra_2024A_notes.pdf" "nuevo" ⟨false, true, false⟩ (by decide)
      (by decide) (by decide) (by decide) (by decide)
      (by decide)).2.2 (by decide) (by decide) rfl rfl).1 rfl

/-- Resolving the joined Curso and Materia of an Archivo: with unique
primary keys, `find?` returns exactly the referenced rows, so the course
label and the search filter reduce to those rows. -/
theorem resolve_cm (db : DB)
    (hcid : (db.cursos.map Curso.id).Nodup)
    (hmid : (db.materias.map Materia.id).Nodup)
    {a : Archivo} {c : Curso} {m : Materia}
    (hc : c ∈ db.cursos) (hcc : c.id = a.curso_id)
    (hm : m ∈ db.materias) (hmm : m.id = c.materia_id) :
    courseLabel db a = m.nombre ++ " (" ++ c.periodo ++ ")" ∧
    ∀ term, archivoMatches db term a =
      (ilikeContains a.nombre term || ilikeContains m.nombre term ||
        ilikeContains c.periodo term) := by
  have hc1 : db.cursos.find? (fun x => x.id = a.curso_id) = some c :=
    find?_key_unique Curso.id a.curso_id hcid hc hcc
  have hm1 : db.materias.find? (fun x => x.id = c.materia_id) = some m :=
    find?_key_unique Materia.id c.materia_id hmid hm hmm
  constructor
  · simp only [courseLabel, hc1, hm1]
  · intro term
    simp only [archivoMatches, hc1, hm1]

/-- C7 counterexample: the search term `n_tes` — whose `_` is a LIKE
single-character wildcard in the unescaped `ilike('%' + term + '%')`
pattern — returns teacher 1's `Algebra_2024A_notes.pdf` entry although
neither the file name nor the materia name nor the periodo contains
`n_tes` as a case-insensitive substring: the result set is strictly
larger than the claimed "exactly those … containing the term as a
case-insensitive substring". -/
theorem list_files_wildcard_cex :
    (⟨0, "Algebra_2024A_notes.pdf", "Algebra (2024A)", 5⟩ : FileEntry) ∈
      list_files db2 1 "n_tes" ∧
    ¬ ((lowerStr "n_tes").data <:+:
        (lowerStr "Algebra_2024A_notes.pdf").data) ∧
    ¬ ((lowerStr "n_tes").data <:+: (lowerStr "Algebra").data) ∧
    ¬ ((lowerStr "n_tes").data <:+: (lowerStr "2024A").data) := by decide

/-- C7 as amended: under the table constraints (unique Curso and Materia
primary keys, every Archivo referencing an existing Curso and every
Curso an existing Materia), `list_files` is ordered by upload timestamp
descending, and an entry is in the result exactly when it annotates an
Archivo of the calling teacher with its course's materia name and
periodo — all of them when the search term is empty, and, for a nonempty
term, exactly those whose file name, materia name or periodo matches the
term as a case-insensitive SQL LIKE search in which `%` and `_` of the
term act as wildcards.  For a term free of both wildcards that match is
exactly case-insensitive substring containment (last conjunct). -/
theorem list_files_spec (db : DB) (uid : Nat) (term : String)
    (hcid : (db.cursos.map Curso.id).Nodup)
    (hmid : (db.materias.map Materia.id).Nodup)
    (hrc : ∀ a ∈ db.archivos, ∃ c ∈ db.cursos, c.id = a.curso_id)
    (hrm : ∀ c ∈ db.cursos, ∃ m ∈ db.materias, m.id = c.materia_id) :
    (list_files db uid term).Pairwise (fun x y => y.date ≤ x.date) ∧
    (∀ e, e ∈ list_files db uid term ↔
      ∃ a ∈ db.archivos, ∃ c ∈ db.cursos, ∃ m ∈ db.materias,
        a.docente_id = uid ∧ c.id = a.curso_id ∧ m.id = c.materia_id ∧
        (term ≠ "" →
          (ilikeContains a.nombre term = true ∨
           ilikeContains m.nombre term = true ∨
           ilikeContains c.periodo term = true)) ∧
        e = ⟨a.id, a.nombre, m.nombre ++ " (" ++ c.periodo ++ ")",
          a.fecha_subida⟩) ∧
    (∀ hay : String, '%' ∉ (lowerStr term).data →
      '_' ∉ (lowerStr term).data →
      (ilikeContains hay term = true ↔
        (lowerStr term).data <:+: (lowerStr hay).data)) := by
  refine ⟨?_, ?_, fun hay hp hu => ilikeContains_no_wildcard hay term hp hu⟩
  · have hpw := @pairwise_sortByLe Archivo
      (fun a b : Archivo => decide (b.fecha_subida ≤ a.fecha_subida))
      (fun a b => by simpa using Nat.le_total b.fecha_subida a.fecha_subida)
      (fun a b c hab hbc => by
        simp only [decide_eq_true_eq] at hab hbc ⊢
        exact Nat.le_trans hbc hab)
      (if term = "" then db.archivos.filter (fun a => a.docente_id = uid)
       else (db.archivos.filter (fun a => a.docente_id = uid)).filter
         (archivoMatches db term))
    simp only [list_files]
    refine List.pairwise_map.mpr (hpw.imp ?_)
    intro a b h
    simpa using h
  · intro e
    simp only [list_files]
    by_cases hterm : term = ""
    · subst hterm
      rw [if_pos rfl]
      constructor
      · intro he
        obtain ⟨a, ha, hfe⟩ := List.mem_map.mp he
        rw [mem_sortByLe, List.mem_filter] at ha
        obtain ⟨hmem, hdoc⟩ := ha
        obtain ⟨c, hc, hcc⟩ := hrc a hmem
        obtain ⟨m, hm, hmm⟩ := hrm c hc
        have hres := resolve_cm db hcid hmid hc hcc hm hmm
        refine ⟨a, hmem, c, hc, m, hm, by simpa using hdoc, hcc, hmm,
          fun h => absurd rfl h, ?_⟩
        rw [← hfe, hres.1]
      · rintro ⟨a, hmem, c, hc, m, hm, hdoc, hcc, hmm, -, rfl⟩
        have hres := resolve_cm db hcid hmid hc hcc hm hmm
        apply List.mem_map.mpr
        refine ⟨a, ?_, by rw [hres.1]⟩
        rw [mem_sortByLe, List.mem_filter]
        exact ⟨hmem, by simpa using hdoc⟩
    · rw [if_neg hterm]
      constructor
      · intro he
        obtain ⟨a, ha, hfe⟩ := List.mem_map.mp he
        rw [mem_sortByLe, List.mem_filter] at ha
        obtain ⟨ha1, hmatch⟩ := ha
        rw [List.mem_filter] at ha1
        obtain ⟨hmem, hdoc⟩ := ha1
        obtain ⟨c, hc, hcc⟩ := hrc a hmem
        obtain ⟨m, hm, hmm⟩ := hrm c hc
        have hres := resolve_cm db hcid hmid hc hcc hm hmm
        rw [hres.2 term] at hmatch
        simp only [Bool.or_eq_true] at hmatch
        refine ⟨a, hmem, c, hc, m, hm, by simpa using hdoc, hcc, hmm,
          fun _ => by tauto, ?_⟩
        rw [← hfe, hres.1]
      · rintro ⟨a, hmem, c, hc, m, hm, hdoc, hcc, hmm, hlike, rfl⟩
        have hres := resolve_cm db hcid hmid hc hcc hm hmm
        apply List.mem_map.mpr
        refine ⟨a, ?_, by rw [hres.1]⟩
        rw [mem_sortByLe, List.mem_filter]
        refine ⟨List.mem_filter.mpr ⟨hmem, by simpa using hdoc⟩, ?_⟩
        rw [hres.2 term]
        simp only [Bool.or_eq_true]
        have hd := hlike hterm
        tauto

/-- C7 witness: in the two-teacher database, searching teacher 1's files
for `alg` (wildcard-free) returns the annotated Algebra entry. -/
theorem list_files_spec_witness :
    (⟨0, "Algebra_2024A_notes.pdf", "Algebra (2024A)", 5⟩ : FileEntry) ∈
      list_files db2 1 "alg" := by
  have h := list_files_spec db2 1 "alg" (by decide) (by decide) (by decide)
    (by decide)
  exact (h.2.1 _).mpr ⟨⟨0, "Algebra_2024A_notes.pdf", 1, 0, 5⟩, by decide,
    ⟨0, 1, 0, "2024A"⟩, by decide, ⟨0, "Algebra"⟩, by decide, rfl, rfl, rfl,
    fun _ => Or.inl (by decide), rfl⟩

end Prototipo
